import Mathlib

/-!
Verification of the guacamole-server transport/framing layer (guac_socket)
and of the guacenc image-stream dispatch, against the repository's
specification. The repository provides the interface headers
(`src/libguac/guacamole/socket.h`, `src/guacenc/image-stream.h`); the
corresponding implementation files are not part of the provided sources, so
the operations below are modelled from the specification's description of
their behaviour, faithful to its words. Bytes are modelled as natural
numbers (byte values), byte strings as `List Nat`.
-/

set_option maxHeartbeats 1000000

/-- Minimal decimal representation helper: digits of `n`, most significant
first, as ASCII digit bytes; `fuel` bounds the recursion and yields `[]`
for `n = 0`. -/
def decReprAux : Nat → Nat → List Nat
  | 0, _ => []
  | fuel + 1, n => if n = 0 then [] else decReprAux fuel (n / 10) ++ [n % 10 + 48]

/-- The minimal decimal representation of `n` as ASCII digit bytes: no
leading zeros, and the single byte `48` (the digit `0`) for zero. -/
def decRepr (n : Nat) : List Nat :=
  if n = 0 then [48] else decReprAux n n

/-- Numeric value of a most-significant-first list of ASCII digit bytes. -/
def fromDigits (ds : List Nat) : Nat :=
  ds.foldl (fun acc d => acc * 10 + (d - 48)) 0

/-- Whether a byte is an ASCII decimal digit. -/
def isDigitByte (b : Nat) : Bool :=
  decide (48 ≤ b ∧ b ≤ 57)

/-- Modelled from the spec: the element framing performed by the socket's
framing writers (the implementation `socket.c` is not among the provided
sources). An element is the minimal decimal byte length of its payload,
then a literal period (byte 46), then the payload bytes verbatim. -/
def frameElement (payload : List Nat) : List Nat :=
  decRepr payload.length ++ 46 :: payload

/-- Join byte strings with comma (byte 44) separators. -/
def joinComma : List (List Nat) → List Nat
  | [] => []
  | [e] => e
  | e :: es => e ++ 44 :: joinComma es

/-- Modelled from the spec: a complete framed instruction — the framed
elements joined by commas, terminated by a semicolon (byte 59). -/
def frameInstruction (els : List (List Nat)) : List Nat :=
  joinComma (els.map frameElement) ++ [59]

/-- Parse one framed element: read the decimal length prefix up to the
period, then take exactly that many following bytes; returns the payload
and the remaining input. -/
def parseElement (input : List Nat) : Option (List Nat × List Nat) :=
  match input.takeWhile isDigitByte, input.dropWhile isDigitByte with
  | [], _ => none
  | d :: ds, 46 :: r =>
      let n := fromDigits (d :: ds)
      if n ≤ r.length then some (r.take n, r.drop n) else none
  | _, _ => none

/-- Parse the elements of a framed instruction (comma separated, semicolon
terminated); `fuel` bounds the recursion. -/
def parseElems : Nat → List Nat → Option (List (List Nat))
  | 0, _ => none
  | fuel + 1, input =>
    match parseElement input with
    | none => none
    | some (e, rest) =>
      match rest with
      | [] => none
      | c :: r =>
        if c = 59 then
          if r = [] then some [e] else none
        else if c = 44 then
          match parseElems fuel r with
          | some es => some (e :: es)
          | none => none
        else none

/-- Parse a complete framed instruction into its decoded elements. -/
def parseInstruction (input : List Nat) : Option (List (List Nat)) :=
  parseElems input.length input

theorem fromDigits_append_one (L : List Nat) (x : Nat) :
    fromDigits (L ++ [x]) = fromDigits L * 10 + (x - 48) := by
  unfold fromDigits
  rw [List.foldl_append]
  rfl

theorem fromDigits_decReprAux (fuel n : Nat) (h : n ≤ fuel) :
    fromDigits (decReprAux fuel n) = n := by
  induction fuel generalizing n with
  | zero =>
    interval_cases n
    rfl
  | succ fuel ih =>
    unfold decReprAux
    by_cases hn : n = 0
    · simp [hn, fromDigits]
    · simp only [hn, if_false]
      rw [fromDigits_append_one, ih (n / 10) (by omega)]
      omega

theorem fromDigits_decRepr (n : Nat) : fromDigits (decRepr n) = n := by
  unfold decRepr
  by_cases hn : n = 0
  · simp [hn, fromDigits]
  · simp only [hn, if_false]
    exact fromDigits_decReprAux n n le_rfl

theorem decReprAux_digits (fuel n : Nat) :
    ∀ d ∈ decReprAux fuel n, 48 ≤ d ∧ d ≤ 57 := by
  induction fuel generalizing n with
  | zero => intro d hd; simp [decReprAux] at hd
  | succ fuel ih =>
    intro d hd
    unfold decReprAux at hd
    by_cases hn : n = 0
    · simp [hn] at hd
    · simp only [hn, if_false, List.mem_append, List.mem_singleton] at hd
      rcases hd with hd | hd
      · exact ih (n / 10) d hd
      · have := Nat.mod_lt n (show 0 < 10 by omega)
        omega

theorem decRepr_digits (n : Nat) : ∀ d ∈ decRepr n, 48 ≤ d ∧ d ≤ 57 := by
  intro d hd
  unfold decRepr at hd
  by_cases hn : n = 0
  · simp [hn] at hd
    omega
  · simp only [hn, if_false] at hd
    exact decReprAux_digits n n d hd

theorem decReprAux_head (fuel n : Nat) (hn : n ≠ 0) (h : n ≤ fuel) :
    decReprAux fuel n ≠ [] ∧ (decReprAux fuel n).head? ≠ some 48 := by
  induction fuel generalizing n with
  | zero => omega
  | succ fuel ih =>
    unfold decReprAux
    simp only [hn, if_false]
    by_cases h10 : n < 10
    · have : n / 10 = 0 := by omega
      rw [this]
      have hz : decReprAux fuel 0 = [] := by
        cases fuel <;> simp [decReprAux]
      rw [hz]
      constructor
      · simp
      · have : n % 10 = n := by omega
        simp [this]
        omega
    · have hq : n / 10 ≠ 0 := by omega
      have hqf : n / 10 ≤ fuel := by
        have := Nat.div_lt_self (by omega : 0 < n) (by omega : 1 < 10)
        omega
      obtain ⟨hne, hhd⟩ := ih (n / 10) hq hqf
      constructor
      · simp
      · cases hL : decReprAux fuel (n / 10) with
        | nil => exact absurd hL hne
        | cons a L =>
          rw [hL] at hhd
          simp at hhd ⊢
          omega

theorem decRepr_ne_nil (n : Nat) : decRepr n ≠ [] := by
  unfold decRepr
  by_cases hn : n = 0
  · simp [hn]
  · simp only [hn, if_false]
    exact (decReprAux_head n n hn le_rfl).1

theorem decRepr_head_ne_zero (n : Nat) (hn : n ≠ 0) :
    (decRepr n).head? ≠ some 48 := by
  unfold decRepr
  simp only [hn, if_false]
  exact (decReprAux_head n n hn le_rfl).2

theorem takeWhile_append_stop (p : Nat → Bool) (l : List Nat) (y : Nat)
    (r : List Nat) (hl : ∀ x ∈ l, p x = true) (hy : p y = false) :
    (l ++ y :: r).takeWhile p = l ∧ (l ++ y :: r).dropWhile p = y :: r := by
  induction l with
  | nil => simp [List.takeWhile_cons, List.dropWhile_cons, hy]
  | cons a l ih =>
    have ha : p a = true := hl a (by simp)
    have := ih (fun x hx => hl x (by simp [hx]))
    simp [List.takeWhile_cons, List.dropWhile_cons, ha, this.1, this.2]

theorem parseElement_frame (s rest : List Nat) :
    parseElement (frameElement s ++ rest) = some (s, rest) := by
  have hsplit : frameElement s ++ rest
      = decRepr s.length ++ 46 :: (s ++ rest) := by
    simp [frameElement]
  have hdig : ∀ x ∈ decRepr s.length, isDigitByte x = true := by
    intro x hx
    have := decRepr_digits s.length x hx
    simp [isDigitByte]
    omega
  have h46 : isDigitByte 46 = false := by decide
  obtain ⟨ht, hd⟩ :=
    takeWhile_append_stop isDigitByte (decRepr s.length) 46 (s ++ rest) hdig h46
  unfold parseElement
  rw [hsplit, ht, hd]
  cases hL : decRepr s.length with
  | nil => exact absurd hL (decRepr_ne_nil s.length)
  | cons d ds =>
    have hval : fromDigits (d :: ds) = s.length := by
      rw [← hL]; exact fromDigits_decRepr s.length
    simp only [hval]
    have hle : s.length ≤ (s ++ rest).length := by simp
    simp [hle, List.take_left, List.drop_left]

theorem frameInstruction_single (e : List Nat) :
    frameInstruction [e] = frameElement e ++ [59] := rfl

theorem frameInstruction_cons (e e2 : List Nat) (es : List (List Nat)) :
    frameInstruction (e :: e2 :: es)
      = frameElement e ++ 44 :: frameInstruction (e2 :: es) := by
  simp [frameInstruction, joinComma]

theorem frameElement_length (e : List Nat) : 2 ≤ (frameElement e).length := by
  unfold frameElement
  have h1 : decRepr e.length ≠ [] := decRepr_ne_nil e.length
  have h2 : 1 ≤ (decRepr e.length).length := by
    cases h : decRepr e.length with
    | nil => exact absurd h h1
    | cons a l => simp
  simp
  omega

theorem length_le_frameInstruction (els : List (List Nat)) :
    els.length ≤ (frameInstruction els).length := by
  induction els with
  | nil => simp [frameInstruction, joinComma]
  | cons e es ih =>
    cases es with
    | nil =>
      rw [frameInstruction_single]
      simp
    | cons e2 es2 =>
      rw [frameInstruction_cons]
      have := frameElement_length e
      simp at ih ⊢
      omega

theorem parseElems_frame (els : List (List Nat)) (fuel : Nat)
    (hne : els ≠ []) (hfuel : els.length ≤ fuel) :
    parseElems fuel (frameInstruction els) = some els := by
  induction els generalizing fuel with
  | nil => exact absurd rfl hne
  | cons e es ih =>
    cases fuel with
    | zero => simp at hfuel
    | succ fuel =>
      cases es with
      | nil =>
        rw [frameInstruction_single]
        unfold parseElems
        rw [parseElement_frame]
        simp
      | cons e2 es2 =>
        rw [frameInstruction_cons]
        unfold parseElems
        rw [parseElement_frame]
        have hrec : parseElems fuel (frameInstruction (e2 :: es2)) = some (e2 :: es2) :=
          ih fuel (by simp) (by simp at hfuel ⊢; omega)
        simp [hrec]

theorem parseInstruction_frame (els : List (List Nat)) (hne : els ≠ []) :
    parseInstruction (frameInstruction els) = some els :=
  parseElems_frame els _ hne (length_le_frameInstruction els)

/-- The standard base64 alphabet, as the byte value of the character for a
sextet value. -/
def b64char (n : Nat) : Nat :=
  if n < 26 then 65 + n
  else if n < 52 then 97 + (n - 26)
  else if n < 62 then 48 + (n - 52)
  else if n = 62 then 43
  else 47

/-- Inverse of the base64 alphabet: sextet value of a character byte. -/
def b64val (c : Nat) : Nat :=
  if 65 ≤ c ∧ c ≤ 90 then c - 65
  else if 97 ≤ c ∧ c ≤ 122 then c - 97 + 26
  else if 48 ≤ c ∧ c ≤ 57 then c - 48 + 52
  else if c = 43 then 62
  else if c = 47 then 63
  else 0

/-- Standard (whole-input) base64 encoding of a byte string, including the
`=` padding (byte 61) of a final partial group. -/
def encodeB64 : List Nat → List Nat
  | a :: b :: c :: rest =>
      b64char (a / 4) :: b64char (a % 4 * 16 + b / 16) ::
      b64char (b % 16 * 4 + c / 64) :: b64char (c % 64) :: encodeB64 rest
  | [a] => [b64char (a / 4), b64char (a % 4 * 16), 61, 61]
  | [a, b] => [b64char (a / 4), b64char (a % 4 * 16 + b / 16), b64char (b % 16 * 4), 61]
  | [] => []

/-- A standard base64 decoder: consumes four characters at a time, honouring
`=` padding (byte 61) in the third or fourth position of the final group. -/
def decodeB64 : List Nat → List Nat
  | c1 :: c2 :: c3 :: c4 :: rest =>
      if c3 = 61 then [b64val c1 * 4 + b64val c2 / 16]
      else if c4 = 61 then
        [b64val c1 * 4 + b64val c2 / 16, b64val c2 % 16 * 16 + b64val c3 / 4]
      else
        (b64val c1 * 4 + b64val c2 / 16) ::
        (b64val c2 % 16 * 16 + b64val c3 / 4) ::
        (b64val c3 % 4 * 64 + b64val c4) :: decodeB64 rest
  | _ => []

/-- Modelled from the spec: the socket's streaming base64 codec state (the
implementation `socket.c` is not among the provided sources) — the 0–2 byte
carry-over ("ready") buffer plus the base64 characters emitted so far into
the output buffer. -/
structure B64State where
  carry : List Nat
  out : List Nat

/-- Modelled from the spec: feeding one byte to the streaming base64 codec —
the byte joins the carry-over; once three bytes are ready, a 4-character
base64 group is emitted and the carry-over is cleared. -/
def b64step (st : B64State) (b : Nat) : B64State :=
  match st.carry with
  | [x, y] =>
      { carry := [],
        out := st.out ++
          [b64char (x / 4), b64char (x % 4 * 16 + y / 16),
           b64char (y % 16 * 4 + b / 64), b64char (b % 64)] }
  | c => { carry := c ++ [b], out := st.out }

/-- Modelled from the spec: `guac_socket_write_base64` on one chunk —
feeds the chunk's bytes, in order, to the streaming codec. -/
def writeB64 (st : B64State) (chunk : List Nat) : B64State :=
  chunk.foldl b64step st

/-- Modelled from the spec: `guac_socket_flush_base64` — if one or two bytes
are pending in the carry-over, the final 4-character group is emitted with
standard `=` padding; returns the complete emitted character sequence. -/
def flushB64 (st : B64State) : List Nat :=
  match st.carry with
  | [x] => st.out ++ [b64char (x / 4), b64char (x % 4 * 16), 61, 61]
  | [x, y] =>
      st.out ++ [b64char (x / 4), b64char (x % 4 * 16 + y / 16),
                 b64char (y % 16 * 4), 61]
  | _ => st.out

/-- The initial (empty) streaming base64 codec state. -/
def initB64 : B64State := ⟨[], []⟩

/-- Number of trailing `=` padding bytes of an encoded string. -/
def trailingPad (l : List Nat) : Nat :=
  (l.reverse.takeWhile (fun c => c == 61)).length

theorem b64char_ne_61 (n : Nat) : b64char n ≠ 61 := by
  unfold b64char
  split_ifs <;> omega

theorem b64val_b64char : ∀ n, n < 64 → b64val (b64char n) = n := by decide

theorem flushB64_foldl (s : List Nat) (out : List Nat) :
    flushB64 (List.foldl b64step ⟨[], out⟩ s) = out ++ encodeB64 s := by
  induction s using encodeB64.induct generalizing out with
  | case1 a b c rest ih =>
    have hsteps : List.foldl b64step ⟨[], out⟩ (a :: b :: c :: rest)
        = List.foldl b64step ⟨[], out ++
            [b64char (a / 4), b64char (a % 4 * 16 + b / 16),
             b64char (b % 16 * 4 + c / 64), b64char (c % 64)]⟩ rest := by
      simp [List.foldl_cons, b64step]
    rw [hsteps, ih]
    simp [encodeB64]
  | case2 a =>
    simp [List.foldl_cons, b64step, flushB64, encodeB64]
  | case3 a b =>
    simp [List.foldl_cons, b64step, flushB64, encodeB64]
  | case4 =>
    simp [List.foldl, flushB64, encodeB64]

theorem decodeB64_encodeB64 (s : List Nat) (h : ∀ x ∈ s, x < 256) :
    decodeB64 (encodeB64 s) = s := by
  induction s using encodeB64.induct with
  | case1 a b c rest ih =>
    have ha : a < 256 := h a (by simp)
    have hb : b < 256 := h b (by simp)
    have hc : c < 256 := h c (by simp)
    have h1 : a / 4 < 64 := by omega
    have h2 : a % 4 * 16 + b / 16 < 64 := by omega
    have h3 : b % 16 * 4 + c / 64 < 64 := by omega
    have h4 : c % 64 < 64 := by omega
    simp only [encodeB64, decodeB64, if_neg (b64char_ne_61 (b % 16 * 4 + c / 64)),
      if_neg (b64char_ne_61 (c % 64))]
    rw [b64val_b64char _ h1, b64val_b64char _ h2, b64val_b64char _ h3,
      b64val_b64char _ h4, ih (fun x hx => h x (by simp [hx]))]
    simp only [List.cons.injEq]
    exact ⟨by omega, by omega, by omega, trivial⟩
  | case2 a =>
    have ha : a < 256 := h a (by simp)
    have h1 : a / 4 < 64 := by omega
    have h2 : a % 4 * 16 < 64 := by omega
    simp only [encodeB64, decodeB64]
    norm_num
    rw [b64val_b64char _ h1, b64val_b64char _ h2]
    omega
  | case3 a b =>
    have ha : a < 256 := h a (by simp)
    have hb : b < 256 := h b (by simp)
    have h1 : a / 4 < 64 := by omega
    have h2 : a % 4 * 16 + b / 16 < 64 := by omega
    have h3 : b % 16 * 4 < 64 := by omega
    simp only [encodeB64, decodeB64]
    norm_num [b64char_ne_61 (b % 16 * 4)]
    rw [b64val_b64char _ h1, b64val_b64char _ h2, b64val_b64char _ h3]
    constructor
    · omega
    · omega
  | case4 => rfl

theorem encodeB64_length (s : List Nat) :
    (encodeB64 s).length = (s.length + 2) / 3 * 4 := by
  induction s using encodeB64.induct with
  | case1 a b c rest ih =>
    simp [encodeB64, ih]
    omega
  | case2 a => simp [encodeB64]
  | case3 a b => simp [encodeB64]
  | case4 => simp [encodeB64]

theorem takeWhile_append_of_exists (p : Nat → Bool) (l r : List Nat)
    (hx : ∃ x ∈ l, p x = false) :
    (l ++ r).takeWhile p = l.takeWhile p := by
  induction l with
  | nil => simp at hx
  | cons a l ih =>
    cases hpa : p a with
    | false => simp [List.takeWhile_cons, hpa]
    | true =>
      obtain ⟨x, hxl, hpx⟩ := hx
      have hxl' : x ∈ l := by
        rcases List.mem_cons.mp hxl with rfl | hm
        · rw [hpa] at hpx; cases hpx
        · exact hm
      simp [List.takeWhile_cons, hpa, ih ⟨x, hxl', hpx⟩]

theorem encodeB64_exists_ne_61 (s : List Nat) (hs : s ≠ []) :
    ∃ x ∈ encodeB64 s, (x == 61) = false := by
  rcases s with _ | ⟨a, _ | ⟨b, _ | ⟨c, rest⟩⟩⟩
  · exact absurd rfl hs
  · exact ⟨b64char (a / 4), by simp [encodeB64],
      by simpa using b64char_ne_61 (a / 4)⟩
  · exact ⟨b64char (a / 4), by simp [encodeB64],
      by simpa using b64char_ne_61 (a / 4)⟩
  · exact ⟨b64char (a / 4), by simp [encodeB64],
      by simpa using b64char_ne_61 (a / 4)⟩

theorem encodeB64_ne_nil (s : List Nat) (hs : s ≠ []) : encodeB64 s ≠ [] := by
  obtain ⟨x, hx, _⟩ := encodeB64_exists_ne_61 s hs
  intro hcon
  rw [hcon] at hx
  simp at hx

theorem trailingPad_encodeB64 (s : List Nat) :
    trailingPad (encodeB64 s) = (3 - s.length % 3) % 3 := by
  induction s using encodeB64.induct with
  | case1 a b c rest ih =>
    by_cases hr : rest = []
    · subst hr
      have h4 : (b64char (c % 64) == 61) = false := by
        simpa using b64char_ne_61 (c % 64)
      simp [encodeB64, trailingPad, List.takeWhile, h4]
    · unfold trailingPad
      simp only [encodeB64]
      have hrev : (b64char (a / 4) :: b64char (a % 4 * 16 + b / 16) ::
          b64char (b % 16 * 4 + c / 64) :: b64char (c % 64) ::
          encodeB64 rest).reverse
          = (encodeB64 rest).reverse ++
            [b64char (c % 64), b64char (b % 16 * 4 + c / 64),
             b64char (a % 4 * 16 + b / 16), b64char (a / 4)] := by
        simp
      rw [hrev]
      obtain ⟨x, hx, hpx⟩ := encodeB64_exists_ne_61 rest hr
      rw [takeWhile_append_of_exists _ _ _ ⟨x, List.mem_reverse.mpr hx, hpx⟩]
      have := ih
      unfold trailingPad at this
      rw [this]
      simp only [List.length_cons]
      omega
  | case2 a =>
    have h2 : (b64char (a % 4 * 16) == 61) = false := by
      simpa using b64char_ne_61 (a % 4 * 16)
    simp [encodeB64, trailingPad, List.takeWhile, h2]
  | case3 a b =>
    have h3 : (b64char (b % 16 * 4) == 61) = false := by
      simpa using b64char_ne_61 (b % 16 * 4)
    simp [encodeB64, trailingPad, List.takeWhile, h3]
  | case4 => rfl

/-- Modelled from the spec: the event alphabet of a socket's
instruction-atomicity path — acquiring the instruction lock
(`guac_socket_instruction_begin`), emitting bytes, and releasing it
(`guac_socket_instruction_end`). -/
inductive SockEvent where
  | instrBegin : SockEvent
  | emit : List Nat → SockEvent
  | instrEnd : SockEvent

/-- The byte string of the opcode `blob`. -/
def blobOpcode : List Nat := [98, 108, 111, 98]

/-- Modelled from the spec: the write handler of a socket created by
`guac_socket_nest` (the implementation `socket-nest.c` is not among the
provided sources) — a write of a payload composes one complete
parent-addressed instruction `4.blob,<len>.<index>,<len>.<payload>;` and
emits it on the parent between acquiring and releasing the parent's
instruction lock. -/
def nestWriteEvents (index : Nat) (payload : List Nat) : List SockEvent :=
  [SockEvent.instrBegin,
   SockEvent.emit (frameInstruction [blobOpcode, decRepr index, payload]),
   SockEvent.instrEnd]

/-- The payloads of the emit events of a socket event trace. -/
def emittedOf (evs : List SockEvent) : List (List Nat) :=
  evs.filterMap fun e =>
    match e with
    | SockEvent.emit bs => some bs
    | _ => none

/-- Modelled from the spec: the socket's fixed-capacity output buffer, its
contents, and the transport sink fed by the write handler on flush (the
implementation `socket.c` is not among the provided sources). -/
structure OutBuf where
  cap : Nat
  buf : List Nat
  sent : List Nat

/-- Modelled from the spec: `guac_socket_flush` — drains the buffered bytes
through the transport write handler. -/
def flushBuf (s : OutBuf) : OutBuf :=
  { s with sent := s.sent ++ s.buf, buf := [] }

/-- Modelled from the spec: a single-byte buffered append — if the byte
would overflow the output buffer, the buffered bytes are flushed through
the transport write handler first, then the byte is appended. -/
def writeByteBuffered (s : OutBuf) (b : Nat) : OutBuf :=
  if s.cap < s.buf.length + 1 then
    let s' := flushBuf s
    { s' with buf := s'.buf ++ [b] }
  else
    { s with buf := s.buf ++ [b] }

/-- Modelled from the spec: a buffered write of a byte sequence — the bytes
are appended to the output buffer in order, flushing whenever the buffer
would overflow. -/
def writeBuffered (s : OutBuf) (bytes : List Nat) : OutBuf :=
  bytes.foldl writeByteBuffered s

/-- Modelled from the spec: the framed `nop` keep-alive instruction. -/
def nopInstr : List Nat := frameInstruction [[110, 111, 112]]

/-- Modelled from the spec: one wake cycle of the keep-alive thread (the
implementation `socket.c` is not among the provided sources) — if the
socket is still open, a `nop` instruction is emitted through the
instruction-atomicity path; after the socket is freed, nothing is
emitted. -/
def keepAliveTick (isOpen : Bool) : List SockEvent :=
  if isOpen then [SockEvent.instrBegin, SockEvent.emit nopInstr, SockEvent.instrEnd]
  else []

/-- Modelled from the spec: the keep-alive thread's emissions over a run of
`openTicks` intervals while the socket is open followed by `freedTicks`
intervals after it is freed. -/
def keepAliveRun (openTicks freedTicks : Nat) : List SockEvent :=
  (List.replicate openTicks (keepAliveTick true)).flatten ++
  (List.replicate freedTicks (keepAliveTick false)).flatten

/-- Modelled from the spec: the socket's thread-safety and keep-alive
flags. -/
structure SockFlags where
  threadsafe : Bool
  keepAlive : Bool

/-- Modelled from the spec: `guac_socket_require_threadsafe`. -/
def guac_socket_require_threadsafe (s : SockFlags) : SockFlags :=
  { s with threadsafe := true }

/-- Modelled from the spec: `guac_socket_require_keep_alive` — enabling
keep-alive automatically enables thread-safety. -/
def guac_socket_require_keep_alive (s : SockFlags) : SockFlags :=
  { guac_socket_require_threadsafe s with keepAlive := true }

/-- Modelled from the spec: a socket's pluggable transport handler set
(read/write/select/free, each optional; absence means the operation is
unsupported and fails). A write handler maps the transport sink and the
written bytes to a status and the new sink. -/
structure MSocket where
  read_handler : Option (List Nat → Nat → Int × List Nat)
  write_handler : Option (List Nat → List Nat → Int × List Nat)
  select_handler : Option (Int → Int)
  free_handler : Option (Unit → Int)

/-- Modelled from the spec: `guac_socket_alloc` — returns a completely
blank socket with no handlers set. -/
def guac_socket_alloc : MSocket :=
  { read_handler := none, write_handler := none,
    select_handler := none, free_handler := none }

/-- Modelled from the spec: `guac_socket_write` — delegates to the write
handler; with no handler set the operation is unsupported: it fails with a
non-zero status and the transport sink is untouched. -/
def guac_socket_write (s : MSocket) (sink : List Nat) (buf : List Nat) :
    Int × List Nat :=
  match s.write_handler with
  | none => (-1, sink)
  | some h => h sink buf

/-- Modelled from the spec: the resources guac_socket_free acts on — the
pending output, the transport sink, the keep-alive thread, the socket's own
memory, and its lock objects. -/
structure FreeWorld where
  pending : List Nat
  sink : List Nat
  threadRunning : Bool
  memoryHeld : Bool
  locksHeld : Bool

/-- Modelled from the spec: the cleanup steps of `guac_socket_free`, in
order. -/
inductive FreeAction where
  | flushOutput : FreeAction
  | joinKeepAliveThread : FreeAction
  | callFreeHandler : FreeAction
  | destroyLocks : FreeAction
  | releaseMemory : FreeAction
deriving DecidableEq

/-- Modelled from the spec: `guac_socket_free` (the implementation
`socket.c` is not among the provided sources) — flushes pending output,
joins the keep-alive thread when one exists, invokes the free handler
(whose result becomes the return value), and always destroys the socket's
lock objects and releases its memory. -/
def guac_socket_free (hasThread : Bool) (handlerResult : Int) (w : FreeWorld) :
    Int × FreeWorld × List FreeAction :=
  let w1 : FreeWorld := { w with sink := w.sink ++ w.pending, pending := [] }
  let w2 : FreeWorld := { w1 with threadRunning := false }
  let w3 : FreeWorld := { w2 with locksHeld := false, memoryHeld := false }
  (handlerResult, w3,
    [FreeAction.flushOutput] ++
    (if hasThread then [FreeAction.joinKeepAliveThread] else []) ++
    [FreeAction.callFreeHandler, FreeAction.destroyLocks, FreeAction.releaseMemory])

/-- The rendering buffer a decoded image is drawn to (interface
`guacenc_buffer`, modelled only as its content). -/
structure GBuffer where
  content : List Nat

/-- A guacenc decoder: its data handler maps the stream's private state and
a received chunk to a status and new private state; its end handler maps
the private state and the destination buffer to a status and new buffer. -/
structure GDecoder where
  data_handler : List Nat → List Nat → Int × List Nat
  end_handler : List Nat → GBuffer → Int × GBuffer

/-- The state of an allocated guacenc image stream, per
`guacenc_image_stream` in `image-stream.h`: destination index, channel
mask, destination coordinates, the optional decoder, and the decoder's
private data. -/
structure ImgStream where
  index : Int
  mask : Int
  x : Int
  y : Int
  decoder : Option GDecoder
  sdata : List Nat

/-- Modelled from the spec: `guacenc_image_stream_receive` (the
implementation `image-stream.c` is not among the provided sources) — passes
the chunk to the stream's decoder; if no decoder is associated with the
stream, the function has no effect and succeeds. -/
def guacenc_image_stream_receive (s : ImgStream) (data : List Nat) :
    Int × ImgStream :=
  match s.decoder with
  | none => (0, s)
  | some d =>
      let r := d.data_handler s.sdata data
      (r.1, { s with sdata := r.2 })

/-- Modelled from the spec: `guacenc_image_stream_end` (the implementation
`image-stream.c` is not among the provided sources) — asks the stream's
decoder to render the decoded image to the given buffer; if no decoder is
associated with the stream, the function has no effect and succeeds. -/
def guacenc_image_stream_end (s : ImgStream) (buffer : GBuffer) :
    Int × GBuffer :=
  match s.decoder with
  | none => (0, buffer)
  | some d => d.end_handler s.sdata buffer

/-- Modelled from the spec: `guac_socket_write_int` frames the decimal text
of a signed 64-bit integer as a length-prefixed element's payload (the
implementation `socket.c` is not among the provided sources); this is that
payload text — a minus sign (byte 45) for negative values, then the minimal
decimal digits. -/
def writeIntPayload (i : Int) : List Nat :=
  if i < 0 then 45 :: decRepr i.natAbs else decRepr i.toNat

theorem writeByteBuffered_inv (s : OutBuf) (b : Nat)
    (hcap : 1 ≤ s.cap) (hinv : s.buf.length ≤ s.cap) :
    (writeByteBuffered s b).buf.length ≤ s.cap ∧
    (writeByteBuffered s b).cap = s.cap ∧
    (writeByteBuffered s b).sent ++ (writeByteBuffered s b).buf
      = s.sent ++ s.buf ++ [b] := by
  unfold writeByteBuffered flushBuf
  by_cases hc : s.cap < s.buf.length + 1
  · simp only [if_pos hc]
    refine ⟨by simpa using hcap, trivial, by simp⟩
  · simp only [if_neg hc]
    refine ⟨by simp; omega, trivial, by simp⟩

theorem writeBuffered_inv (bytes : List Nat) (s : OutBuf)
    (hcap : 1 ≤ s.cap) (hinv : s.buf.length ≤ s.cap) :
    (writeBuffered s bytes).buf.length ≤ s.cap ∧
    (writeBuffered s bytes).cap = s.cap ∧
    (writeBuffered s bytes).sent ++ (writeBuffered s bytes).buf
      = s.sent ++ s.buf ++ bytes := by
  induction bytes generalizing s with
  | nil =>
    refine ⟨hinv, rfl, by simp [writeBuffered]⟩
  | cons b bs ih =>
    obtain ⟨h1, h2, h3⟩ := writeByteBuffered_inv s b hcap hinv
    obtain ⟨g1, g2, g3⟩ :=
      ih (writeByteBuffered s b) (by omega) (by omega)
    have hw : writeBuffered s (b :: bs)
        = writeBuffered (writeByteBuffered s b) bs := rfl
    rw [hw]
    refine ⟨by omega, by omega, ?_⟩
    rw [g3, h3]
    simp

theorem emittedOf_keepAliveRun (n m : Nat) :
    emittedOf (keepAliveRun n m) = List.replicate n nopInstr := by
  unfold keepAliveRun
  have hm : (List.replicate m (keepAliveTick false)).flatten = ([] : List SockEvent) := by
    induction m with
    | zero => simp
    | succ m ihm => simp [List.replicate_succ, ihm, keepAliveTick]
  rw [hm, List.append_nil]
  induction n with
  | zero => simp [emittedOf]
  | succ n ihn =>
    rw [List.replicate_succ, List.flatten_cons]
    unfold emittedOf at ihn ⊢
    rw [List.filterMap_append, ihn]
    simp [keepAliveTick, List.replicate_succ]

/-- Claim C1: every instruction emitted through the framing writers encodes
each element as the minimal decimal byte length of its payload (no leading
zeros, the digit 0 for an empty payload), followed by a literal period,
followed by the payload verbatim; elements are joined by commas and the
instruction is terminated by a semicolon; in particular the instruction
with opcode `size` and arguments `0`, `1024`, `768` is framed as exactly
the bytes of `4.size,1.0,4.1024,3.768;`. -/
theorem c1_framing_format :
    frameInstruction [[115, 105, 122, 101], [48], [49, 48, 50, 52], [55, 54, 56]] =
      [52, 46, 115, 105, 122, 101, 44,
       49, 46, 48, 44,
       52, 46, 49, 48, 50, 52, 44,
       51, 46, 55, 54, 56, 59] ∧
    (∀ e : List Nat, frameElement e = decRepr e.length ++ 46 :: e) ∧
    (∀ n : Nat, fromDigits (decRepr n) = n) ∧
    decRepr 0 = [48] ∧
    (∀ n : Nat, n ≠ 0 → (decRepr n).head? ≠ some 48) ∧
    (∀ e : List Nat, frameInstruction [e] = frameElement e ++ [59]) ∧
    (∀ (e e2 : List Nat) (es : List (List Nat)),
      frameInstruction (e :: e2 :: es)
        = frameElement e ++ 44 :: frameInstruction (e2 :: es)) :=
  ⟨by decide, fun _ => rfl, fromDigits_decRepr, rfl, decRepr_head_ne_zero,
   frameInstruction_single, frameInstruction_cons⟩

/-- Witness for C1: the no-leading-zero clause instantiated at 1024. -/
theorem c1_framing_format_witness :
    (1024 : Nat) ≠ 0 ∧ (decRepr 1024).head? ≠ some 48 :=
  ⟨by decide, c1_framing_format.2.2.2.2.1 1024 (by decide)⟩

/-- Claim C2: encoding any byte sequence through any chunking of
`write_base64` calls followed by one `flush_base64` yields the standard
base64 encoding of the concatenated bytes — independent of the chunk
boundaries — which a standard base64 decoder maps back to exactly the
original bytes; the output consists of `ceil(n/3)*4` characters, the final
group carrying 1 or 2 `=` padding characters exactly when `n mod 3 ≠ 0`. -/
theorem c2_base64_roundtrip (chunks : List (List Nat))
    (h : ∀ x ∈ chunks.flatten, x < 256) :
    flushB64 (List.foldl writeB64 initB64 chunks) = encodeB64 chunks.flatten ∧
    decodeB64 (encodeB64 chunks.flatten) = chunks.flatten ∧
    (encodeB64 chunks.flatten).length = (chunks.flatten.length + 2) / 3 * 4 ∧
    trailingPad (encodeB64 chunks.flatten) = (3 - chunks.flatten.length % 3) % 3 := by
  refine ⟨?_, decodeB64_encodeB64 _ h, encodeB64_length _, trailingPad_encodeB64 _⟩
  have hfold : List.foldl writeB64 initB64 chunks
      = List.foldl b64step initB64 chunks.flatten := by
    rw [List.foldl_flatten]
    rfl
  rw [hfold]
  simpa [initB64] using flushB64_foldl chunks.flatten []

/-- Witness for C2 at a concrete two-chunk input. -/
theorem c2_base64_roundtrip_witness :
    flushB64 (List.foldl writeB64 initB64 [[104], [101, 108]])
      = encodeB64 ([[104], [101, 108]] : List (List Nat)).flatten ∧
    decodeB64 (encodeB64 ([[104], [101, 108]] : List (List Nat)).flatten)
      = ([[104], [101, 108]] : List (List Nat)).flatten ∧
    (encodeB64 ([[104], [101, 108]] : List (List Nat)).flatten).length
      = (([[104], [101, 108]] : List (List Nat)).flatten.length + 2) / 3 * 4 ∧
    trailingPad (encodeB64 ([[104], [101, 108]] : List (List Nat)).flatten)
      = (3 - ([[104], [101, 108]] : List (List Nat)).flatten.length % 3) % 3 :=
  c2_base64_roundtrip [[104], [101, 108]] (by decide)

/-- Claim C3: for every byte string `s` — including strings containing the
comma, period and semicolon bytes — framing `s` as an element and then
parsing the decimal length prefix and taking exactly that many following
bytes reproduces `s` exactly; the framing layer performs no escaping: the
payload appears verbatim after the period. -/
theorem c3_element_roundtrip (s rest : List Nat) :
    parseElement (frameElement s ++ rest) = some (s, rest) ∧
    frameElement s = decRepr s.length ++ 46 :: s :=
  ⟨parseElement_frame s rest, rfl⟩

/-- Claim C4: for every non-negative signed 64-bit integer `i`, the payload
framed by `write_int(i)` is the minimal decimal representation of `i`: its
digits are ASCII decimal digits whose value reads back as `i`, zero maps to
the single digit `0`, and a non-zero value has no leading zero. -/
theorem c4_write_int_payload (i : Int) (h0 : 0 ≤ i) (h64 : i < 2 ^ 63) :
    writeIntPayload i = decRepr i.toNat ∧
    fromDigits (decRepr i.toNat) = i.toNat ∧
    (∀ d ∈ decRepr i.toNat, isDigitByte d = true) ∧
    (i = 0 → decRepr i.toNat = [48]) ∧
    (i ≠ 0 → (decRepr i.toNat).head? ≠ some 48) := by
  refine ⟨?_, fromDigits_decRepr _, ?_, ?_, ?_⟩
  · unfold writeIntPayload
    rw [if_neg (by omega)]
  · intro d hd
    have := decRepr_digits i.toNat d hd
    simp [isDigitByte]
    omega
  · intro hi
    subst hi
    rfl
  · intro hi
    apply decRepr_head_ne_zero
    omega

/-- Witness for C4 at the concrete input 1024. -/
theorem c4_write_int_payload_witness :
    writeIntPayload 1024 = decRepr (1024 : Int).toNat ∧
    fromDigits (decRepr (1024 : Int).toNat) = (1024 : Int).toNat ∧
    (∀ d ∈ decRepr (1024 : Int).toNat, isDigitByte d = true) ∧
    ((1024 : Int) = 0 → decRepr (1024 : Int).toNat = [48]) ∧
    ((1024 : Int) ≠ 0 → (decRepr (1024 : Int).toNat).head? ≠ some 48) :=
  c4_write_int_payload 1024 (by decide) (by decide)

/-- Claim C5: a write of payload `P` on a socket nested at stream index `k`
emits, between acquiring and releasing the parent's instruction lock,
exactly one complete instruction on the parent, whose decoded elements are
the `blob` opcode, an index element whose decimal value is `k`, and the
payload element `P` verbatim. -/
theorem c5_nested_write (k : Nat) (P : List Nat) :
    nestWriteEvents k P =
      [SockEvent.instrBegin,
       SockEvent.emit (frameInstruction [blobOpcode, decRepr k, P]),
       SockEvent.instrEnd] ∧
    emittedOf (nestWriteEvents k P)
      = [frameInstruction [blobOpcode, decRepr k, P]] ∧
    parseInstruction (frameInstruction [blobOpcode, decRepr k, P])
      = some [blobOpcode, decRepr k, P] ∧
    fromDigits (decRepr k) = k :=
  ⟨rfl, rfl, parseInstruction_frame _ (by simp), fromDigits_decRepr k⟩

/-- Claim C6: across any sequence of buffered writes, the output buffer's
fill count never exceeds its fixed capacity — a write that would overflow
flushes the buffered bytes to the transport first — the capacity is
unchanged, and no written byte is lost: the transport sink plus the
remaining buffer always equals everything written. -/
theorem c6_output_buffer_invariant (ops : List (List Nat)) (s : OutBuf)
    (hcap : 1 ≤ s.cap) (hinv : s.buf.length ≤ s.cap) :
    (List.foldl writeBuffered s ops).buf.length ≤ s.cap ∧
    (List.foldl writeBuffered s ops).cap = s.cap ∧
    (List.foldl writeBuffered s ops).sent ++ (List.foldl writeBuffered s ops).buf
      = s.sent ++ s.buf ++ ops.flatten := by
  induction ops generalizing s with
  | nil =>
    refine ⟨hinv, rfl, by simp⟩
  | cons op ops ih =>
    obtain ⟨h1, h2, h3⟩ := writeBuffered_inv op s hcap hinv
    obtain ⟨g1, g2, g3⟩ := ih (writeBuffered s op) (by omega) (by omega)
    simp only [List.foldl_cons]
    refine ⟨by omega, by omega, ?_⟩
    rw [g3, h3]
    simp

/-- Witness for C6 at a concrete capacity-2 buffer and two writes. -/
theorem c6_output_buffer_invariant_witness :
    (List.foldl writeBuffered ⟨2, [], []⟩ [[1, 2, 3], [4]]).buf.length
        ≤ (⟨2, [], []⟩ : OutBuf).cap ∧
    (List.foldl writeBuffered ⟨2, [], []⟩ [[1, 2, 3], [4]]).cap
        = (⟨2, [], []⟩ : OutBuf).cap ∧
    (List.foldl writeBuffered ⟨2, [], []⟩ [[1, 2, 3], [4]]).sent ++
        (List.foldl writeBuffered ⟨2, [], []⟩ [[1, 2, 3], [4]]).buf
      = (⟨2, [], []⟩ : OutBuf).sent ++ (⟨2, [], []⟩ : OutBuf).buf ++
        ([[1, 2, 3], [4]] : List (List Nat)).flatten :=
  c6_output_buffer_invariant [[1, 2, 3], [4]] ⟨2, [], []⟩ (by decide) (by decide)

/-- Claim C7: with keep-alive enabled and no application writes, the
transport receives exactly one framed `nop` instruction — the bytes of
`3.nop;` — per interval through the instruction-atomicity path while the
socket is open, and nothing after it is freed; enabling keep-alive also
enables thread-safety on the socket. -/
theorem c7_keep_alive (n m : Nat) (s : SockFlags) :
    emittedOf (keepAliveRun n m) = List.replicate n nopInstr ∧
    nopInstr = [51, 46, 110, 111, 112, 59] ∧
    keepAliveTick true
      = [SockEvent.instrBegin, SockEvent.emit nopInstr, SockEvent.instrEnd] ∧
    keepAliveTick false = [] ∧
    (guac_socket_require_keep_alive s).threadsafe = true ∧
    (guac_socket_require_keep_alive s).keepAlive = true :=
  ⟨emittedOf_keepAliveRun n m, by decide, rfl, rfl, rfl, rfl⟩

/-- Claim C8: on a freshly allocated socket — all four transport handlers
unset — a write fails with a non-zero (transport-failure) status and leaves
the transport sink unchanged. -/
theorem c8_write_without_handler (sink buf : List Nat) :
    (guac_socket_write guac_socket_alloc sink buf).1 ≠ 0 ∧
    (guac_socket_write guac_socket_alloc sink buf).2 = sink ∧
    guac_socket_alloc.read_handler = none ∧
    guac_socket_alloc.write_handler = none ∧
    guac_socket_alloc.select_handler = none ∧
    guac_socket_alloc.free_handler = none := by
  refine ⟨?_, rfl, rfl, rfl, rfl, rfl⟩
  norm_num [guac_socket_write, guac_socket_alloc]

/-- Claim C9: `free()` flushes pending output to the transport, stops the
keep-alive thread (joining it exactly when one exists), performs the
destroy-locks and release-memory steps unconditionally, and returns the
free handler's result — so a failing handler yields a failure code while
the socket's own memory and locks are released regardless. -/
theorem c9_free_cleanup (hasThread : Bool) (r : Int) (w : FreeWorld) :
    (guac_socket_free hasThread r w).1 = r ∧
    (guac_socket_free hasThread r w).2.1.sink = w.sink ++ w.pending ∧
    (guac_socket_free hasThread r w).2.1.pending = [] ∧
    (guac_socket_free hasThread r w).2.1.threadRunning = false ∧
    (guac_socket_free hasThread r w).2.1.memoryHeld = false ∧
    (guac_socket_free hasThread r w).2.1.locksHeld = false ∧
    FreeAction.destroyLocks ∈ (guac_socket_free hasThread r w).2.2 ∧
    FreeAction.releaseMemory ∈ (guac_socket_free hasThread r w).2.2 ∧
    (FreeAction.joinKeepAliveThread ∈ (guac_socket_free hasThread r w).2.2
      ↔ hasThread = true) := by
  unfold guac_socket_free
  cases hasThread <;> simp

/-- Claim C10: on an image stream whose decoder is `NULL`, both
`guacenc_image_stream_receive` and `guacenc_image_stream_end` succeed
(return zero) and have no effect: the stream's state and the destination
buffer are unchanged. -/
theorem c10_null_decoder (s : ImgStream) (data : List Nat) (buffer : GBuffer)
    (h : s.decoder = none) :
    guacenc_image_stream_receive s data = (0, s) ∧
    guacenc_image_stream_end s buffer = (0, buffer) := by
  unfold guacenc_image_stream_receive guacenc_image_stream_end
  rw [h]
  exact ⟨rfl, rfl⟩

/-- Witness for C10 at a concrete decoder-less stream. -/
theorem c10_null_decoder_witness :
    guacenc_image_stream_receive ⟨0, 0, 0, 0, none, []⟩ [5]
      = (0, (⟨0, 0, 0, 0, none, []⟩ : ImgStream)) ∧
    guacenc_image_stream_end ⟨0, 0, 0, 0, none, []⟩ ⟨[7]⟩ = (0, (⟨[7]⟩ : GBuffer)) :=
  c10_null_decoder ⟨0, 0, 0, 0, none, []⟩ [5] ⟨[7]⟩ rfl
